import Mathlib

/-!
Verification development for the `ray` renderer (sources:
`src/ray/src/scene/kdTree.h`, `src/ray/src/RayTracer.cpp`,
`src/ray/src/scene/light.cpp`).

Doubles are modelled as exact rationals (`ℚ`); the IEEE square root, whose
exact value is irrational in general, is kept abstract as a parameter
`s : ℚ → ℚ` threaded through every definition that calls `glm::length`,
`glm::normalize`, `glm::distance` or `sqrt`.  Out-parameters passed by
reference in C++ become explicit state threading.
-/

set_option autoImplicit false

/- The core `Rat` operations are `@[extern]` and sealed `@[irreducible]`; the
concrete evaluations below go through the kernel, so restore the default
transparency for them. -/
set_option allowUnsafeReducibility true in
attribute [semireducible] Rat.add Rat.mul Rat.sub Rat.neg Rat.div Rat.inv Rat.blt Rat.ofScientific

set_option maxRecDepth 8000

/-- Triple of doubles, used for positions, directions and colors. -/
structure Vec3 where
  x : ℚ
  y : ℚ
  z : ℚ
  deriving DecidableEq, Repr

def vadd (a b : Vec3) : Vec3 := ⟨a.x + b.x, a.y + b.y, a.z + b.z⟩

def vsub (a b : Vec3) : Vec3 := ⟨a.x - b.x, a.y - b.y, a.z - b.z⟩

def vneg (a : Vec3) : Vec3 := ⟨-a.x, -a.y, -a.z⟩

def vsmul (q : ℚ) (a : Vec3) : Vec3 := ⟨q * a.x, q * a.y, q * a.z⟩

/-- Componentwise product, as `glm` multiplies two `dvec3`s. -/
def vmul (a b : Vec3) : Vec3 := ⟨a.x * b.x, a.y * b.y, a.z * b.z⟩

def vdot (a b : Vec3) : ℚ := a.x * b.x + a.y * b.y + a.z * b.z

/-- `v[axis]` component access, axis 0 = x, 1 = y, 2 = z. -/
def Vec3.comp (v : Vec3) (a : ℕ) : ℚ :=
  if a = 0 then v.x else if a = 1 then v.y else v.z

/-- Write component `a`, as `operator[]` on the left of an assignment. -/
def Vec3.setComp (v : Vec3) (a : ℕ) (q : ℚ) : Vec3 :=
  if a = 0 then { v with x := q } else if a = 1 then { v with y := q } else { v with z := q }

/-- `glm::length v = sqrt (dot v v)`, with the square root abstract. -/
def glmLength (s : ℚ → ℚ) (v : Vec3) : ℚ := s (vdot v v)

/-- `glm::normalize v = v / length v`. -/
def vnormalize (s : ℚ → ℚ) (v : Vec3) : Vec3 := vsmul (1 / glmLength s v) v

/-- `glm::distance a b = length (a - b)`. -/
def glmDistance (s : ℚ → ℚ) (a b : Vec3) : ℚ := glmLength s (vsub a b)

/-- `glm::clamp (q, 0, 1) = min (max q 0) 1` on one component. -/
def qclamp (q : ℚ) : ℚ := min (max q 0) 1

/-- `glm::clamp (v, 0.0, 1.0)` componentwise. -/
def vclamp01 (v : Vec3) : Vec3 := ⟨qclamp v.x, qclamp v.y, qclamp v.z⟩

/-- Modelled from the spec: `RAY_EPSILON` is "a small positive offset (~1e-12)"
(`ray.h` is not among the provided sources). -/
def RAY_EPSILON : ℚ := 1e-12

inductive RayKind where
  | visibility | reflection | refraction | shadow
  deriving DecidableEq, Repr

/-- A ray: origin, direction, per-ray attenuation weight and kind tag. -/
structure Ray where
  pos : Vec3
  dir : Vec3
  atten : Vec3
  kind : RayKind
  deriving DecidableEq, Repr

/-- `ray::at t = position + t * direction`. -/
def Ray.at (r : Ray) (t : ℚ) : Vec3 := vadd r.pos (vsmul t r.dir)

/-- Material capabilities consumed by the core (`material.h` internals are out
of scope): reflective/transmissive flags, the `kr`/`kt` coefficients, the index
of refraction, and an identity used to compare materials across lookups. -/
structure Material where
  matId : ℕ
  refl : Bool
  trans : Bool
  kr : Vec3
  kt : Vec3
  index : ℚ
  deriving DecidableEq, Repr

/-- Intersection record: parametric distance `t`, surface normal, material. -/
structure Isect where
  t : ℚ
  n : Vec3
  material : Material
  deriving DecidableEq, Repr

/-- Axis-aligned bounding box. -/
structure BBox where
  bmin : Vec3
  bmax : Vec3
  deriving DecidableEq, Repr

/-- Modelled from the spec: surface area `2·(ex·ey + ey·ez + ex·ez)` where
`e = max − min` (`bbox.h` is not among the provided sources). -/
def BBox.area (b : BBox) : ℚ :=
  let e := vsub b.bmax b.bmin
  2 * (e.x * e.y + e.y * e.z + e.x * e.z)

/-- `BoundingBox::setMin(axis, v)`. -/
def BBox.setMinC (b : BBox) (axis : ℕ) (v : ℚ) : BBox := ⟨b.bmin.setComp axis v, b.bmax⟩

/-- `BoundingBox::setMax(axis, v)`. -/
def BBox.setMaxC (b : BBox) (axis : ℕ) (v : ℚ) : BBox := ⟨b.bmin, b.bmax.setComp axis v⟩

/-- Modelled from the spec: `BoundingBox::intersect(ray) -> (t_enter, t_exit)`
"clips a ray to the box's active interval using the slab method"; the interval
passed by reference is overwritten with the box's own overlap interval.  "For
each axis with direction ≈ 0 within `RAY_EPSILON`, the origin must lie between
the slabs or the ray misses.  Returns `false` when `t_max < t_min` or
`t_max < 0`."  (`bbox.h` is not among the provided sources.)  The result is
`(hit?, t_enter, t_exit)`, initialised to the unbounded interval `±1e308`. -/
def bboxIntersect (b : BBox) (r : Ray) : Bool × ℚ × ℚ :=
  let stepAxis : (Bool × ℚ × ℚ) → ℕ → (Bool × ℚ × ℚ) := fun st a =>
    let d := r.dir.comp a
    if d < RAY_EPSILON ∧ -RAY_EPSILON < d then
      if b.bmin.comp a ≤ r.pos.comp a ∧ r.pos.comp a ≤ b.bmax.comp a then st
      else (false, st.2.1, st.2.2)
    else
      let t1 := (b.bmin.comp a - r.pos.comp a) / d
      let t2 := (b.bmax.comp a - r.pos.comp a) / d
      let lohi := if t1 ≤ t2 then (t1, t2) else (t2, t1)
      (st.1, max st.2.1 lohi.1, min st.2.2 lohi.2)
  let res := [0, 1, 2].foldl stepAxis (true, -1e308, 1e308)
  (res.1 && decide (res.2.1 ≤ res.2.2) && decide (0 ≤ res.2.2), res.2.1, res.2.2)

/-- A scene geometry as the KD-tree and the tracer consume it: a bounding box,
a normal oracle and a ray-intersection function (primitive internals are
external to the provided sources). -/
structure Geometry where
  bbox : BBox
  normal : Vec3
  intersectFn : Ray → Option Isect

/- ### KD-tree (`src/ray/src/scene/kdTree.h`) -/

/-- Tagged variant of `SplitNode`/`LeafNode`. -/
inductive KNode where
  | split (axis : ℕ) (pos : ℚ) (bbox : BBox) (left right : KNode)
  | leaf (objs : List Geometry)

/-- One iteration of the loop in `LeafNode::findIntersection`: overwrite the
active interval with the object's own box interval (the return value of
`bbox.intersect` is ignored by the source), then keep `curr` when
`curr.t < i.t && curr.t >= t_min && curr.t <= t_max`. -/
def leafStep (ry : Ray) (st : Bool × Isect × ℚ × ℚ) (obj : Geometry) : Bool × Isect × ℚ × ℚ :=
  let bres := bboxIntersect obj.bbox ry
  let tmin := bres.2.1
  let tmax := bres.2.2
  match obj.intersectFn ry with
  | some curr =>
      if curr.t < st.2.1.t ∧ tmin ≤ curr.t ∧ curr.t ≤ tmax then (true, curr, tmin, tmax)
      else (st.1, st.2.1, tmin, tmax)
  | none => (st.1, st.2.1, tmin, tmax)

/-- `Node::findIntersection(ray, isect&, t_min&, t_max&)`; the by-reference
arguments become explicit state `(found, isect, t_min, t_max)`. -/
def KNode.findIntersection : KNode → Ray → Isect → ℚ → ℚ → Bool × Isect × ℚ × ℚ
  | .split axis pos bbox l rgt, ry, i, _, _ =>
      let bres := bboxIntersect bbox ry
      let tmin := bres.2.1
      let tmax := bres.2.2
      let posMin0 := (ry.at tmin).comp axis
      let posMax0 := (ry.at tmax).comp axis
      let pm :=
        if ry.dir.comp axis < RAY_EPSILON ∧ -RAY_EPSILON < ry.dir.comp axis then
          (posMin0 + 1e-6, posMax0 + 1e-6)
        else (posMin0, posMax0)
      if pm.1 < pos ∧ pm.2 < pos then
        l.findIntersection ry i tmin tmax
      else if pos < pm.1 ∧ pos < pm.2 then
        rgt.findIntersection ry i tmin tmax
      else
        let resL := l.findIntersection ry i tmin tmax
        if resL.1 then resL
        else rgt.findIntersection ry resL.2.1 resL.2.2.1 resL.2.2.2
  | .leaf objs, ry, i, tmin, tmax =>
      objs.foldl (leafStep ry) (false, { i with t := 1e13 }, tmin, tmax)

/-- Candidate split plane (`struct Plane`); the count/area scratch fields of
the source are recomputed on demand by `planeCost`. -/
structure Plane where
  axis : ℕ
  position : ℚ
  leftBBox : BBox
  rightBBox : BBox
  deriving DecidableEq, Repr

/-- `KdTree::countP`: count objects whose bbox min lies strictly below the
plane (`left = true`) or whose bbox max lies strictly above (`left = false`). -/
def countP (objList : List Geometry) (plane : Plane) (left : Bool) : ℕ :=
  let countL := objList.countP fun o => decide (o.bbox.bmin.comp plane.axis < plane.position)
  let countR := objList.countP fun o => decide (plane.position < o.bbox.bmax.comp plane.axis)
  if left then countL else countR

/-- The candidate list built by `KdTree::findBestPlane`: for each axis and each
object, one plane at the object's bbox min and one at its bbox max, with the
child boxes formed by clipping the parent box at the plane. -/
def planeCandidates (objList : List Geometry) (bbox : BBox) : List Plane :=
  (List.range 3).flatMap fun axis =>
    objList.flatMap fun o =>
      [ { axis := axis, position := o.bbox.bmin.comp axis
          leftBBox := (BBox.mk bbox.bmin bbox.bmax).setMaxC axis (o.bbox.bmin.comp axis)
          rightBBox := (BBox.mk bbox.bmin bbox.bmax).setMinC axis (o.bbox.bmin.comp axis) },
        { axis := axis, position := o.bbox.bmax.comp axis
          leftBBox := (BBox.mk bbox.bmin bbox.bmax).setMaxC axis (o.bbox.bmax.comp axis)
          rightBBox := (BBox.mk bbox.bmin bbox.bmax).setMinC axis (o.bbox.bmax.comp axis) } ]

/-- The SAH cost computed in the selection loop of `findBestPlane`:
`(leftCount * leftBBoxArea + rightCount * rightBBoxArea) / bbox.area()`. -/
def planeCost (objList : List Geometry) (bbox : BBox) (p : Plane) : ℚ :=
  ((countP objList p true : ℚ) * p.leftBBox.area
    + (countP objList p false : ℚ) * p.rightBBox.area) / bbox.area

/-- The source's `bestPlane` is read uninitialised when no candidate beats
`1e100`; this default stands for that indeterminate value and is never
observed under the hypotheses of the theorems below. -/
def defaultPlane (bbox : BBox) : Plane := ⟨0, 0, bbox, bbox⟩

/-- `KdTree::findBestPlane`: scan the candidates, keeping the first one whose
cost strictly improves on the running minimum (initially `1e100`). -/
def findBestPlane (objList : List Geometry) (bbox : BBox) : Plane :=
  ((planeCandidates objList bbox).foldl
    (fun acc p => if planeCost objList bbox p < acc.1 then (planeCost objList bbox p, p) else acc)
    ((1e100 : ℚ), defaultPlane bbox)).2

/-- C cast of a double to `int`: truncation toward zero. -/
def ratTrunc (q : ℚ) : ℤ := q.num.tdiv q.den

/-- Routing test for the left child list in `buildTreeHelper`:
`min < pos`, or the degenerate tie-break
`pos == max && pos == min && glm::length(normal) < 0`. -/
def routeLeftB (s : ℚ → ℚ) (plane : Plane) (o : Geometry) : Bool :=
  decide (o.bbox.bmin.comp plane.axis < plane.position) ||
    (decide (plane.position = o.bbox.bmax.comp plane.axis) &&
     decide (plane.position = o.bbox.bmin.comp plane.axis) &&
     decide (glmLength s o.normal < 0))

/-- Routing test for the right child list in `buildTreeHelper`:
`max > pos`, or `pos == max && pos == min && glm::length(normal) >= 0`. -/
def routeRightB (s : ℚ → ℚ) (plane : Plane) (o : Geometry) : Bool :=
  decide (plane.position < o.bbox.bmax.comp plane.axis) ||
    (decide (plane.position = o.bbox.bmax.comp plane.axis) &&
     decide (plane.position = o.bbox.bmin.comp plane.axis) &&
     decide (0 ≤ glmLength s o.normal))

/-- The left list accumulated by the routing loop of `buildTreeHelper`. -/
def partitionLeftList (s : ℚ → ℚ) (plane : Plane) (objs : List Geometry) : List Geometry :=
  objs.filter (routeLeftB s plane)

/-- The right list accumulated by the routing loop of `buildTreeHelper`. -/
def partitionRightList (s : ℚ → ℚ) (plane : Plane) (objs : List Geometry) : List Geometry :=
  objs.filter (routeRightB s plane)

/-- `KdTree::buildTreeHelper`.  The explicit fuel bounds the recursion depth;
the C++ recursion is cut only by `++depth == depthLimit` (or small lists), and
with fuel `depthLimit.toNat + 1` (as `buildTree` passes) the fuel case is never
the one that fires for `depthLimit ≥ 0` reached from depth 0.  Note the source
narrows the split position to `int` in the `SplitNode` constructor
(`SplitNode(int a, int p, ...)`), hence the `ratTrunc`. -/
def buildTreeHelperF (s : ℚ → ℚ) : ℕ → List Geometry → BBox → ℤ → ℤ → ℤ → KNode
  | 0, objs, _, _, _, _ => .leaf objs
  | fuel + 1, objs, bbox, depthLimit, leafSize, depth =>
      if (objs.length : ℤ) ≤ leafSize ∨ depth + 1 = depthLimit then .leaf objs
      else
        let bestPlane := findBestPlane objs bbox
        let leftList := partitionLeftList s bestPlane objs
        let rightList := partitionRightList s bestPlane objs
        if rightList.isEmpty ∨ leftList.isEmpty then .leaf objs
        else
          .split bestPlane.axis ((ratTrunc bestPlane.position : ℤ) : ℚ) bbox
            (buildTreeHelperF s fuel leftList bestPlane.leftBBox depthLimit leafSize (depth + 1))
            (buildTreeHelperF s fuel rightList bestPlane.rightBBox depthLimit leafSize (depth + 1))

/-- `KdTree::buildTree`: start the helper at depth 0. -/
def buildTree (s : ℚ → ℚ) (objs : List Geometry) (bbox : BBox) (depthLimit leafSize : ℤ) : KNode :=
  buildTreeHelperF s (depthLimit.toNat + 1) objs bbox depthLimit leafSize 0

/-- Modelled from the spec: the linear scan of `Scene::intersect` (`scene.h`
is not among the provided sources) — "dispatches to KD traversal if built,
else linear"; the linear scan keeps the hit with the smallest `t` over all
geometries. -/
def linearIntersect (objs : List Geometry) (r : Ray) : Option Isect :=
  objs.foldl
    (fun acc o =>
      match o.intersectFn r with
      | some c =>
          match acc with
          | some b => if c.t < b.t then some c else some b
          | none => some c
      | none => acc)
    none

/- ### Ray tracer core (`src/ray/src/RayTracer.cpp`) -/

/-- The external context `RayTracer::traceRay` runs in: the scene's
intersection query, the material `shade` call, the `traceUI` configuration and
the cube-map oracle, plus the camera projection `rayThrough` (all outside the
provided sources, consumed through their interfaces). -/
structure Env where
  sceneLoaded : Bool
  threshold : ℚ
  depth : ℤ
  intersect : Ray → Option Isect
  shade : Ray → Isect → Vec3
  cubeMapOn : Bool
  cubeMap : Ray → Vec3
  rayThrough : ℚ → ℚ → Ray

/-- The body of `RayTracer::traceRay` after its two base-case guards; `rec` is
the recursive call already specialised to `depth - 1`.  The out-parameter `t`
is threaded explicitly: it is set to `i.getT()` on a hit and then overwritten
by each recursive call. -/
def traceRayCore (env : Env) (s : ℚ → ℚ) (rec : Ray → Vec3 → ℚ → Vec3 × ℚ)
    (r : Ray) (thresh : Vec3) (t : ℚ) : Vec3 × ℚ :=
  match env.intersect r with
  | some i =>
      let m := i.material
      let t := i.t
      let colorC := env.shade r i
      let position := r.at i.t
      let d := vnormalize s r.dir
      let n := vnormalize s i.n
      let st1 : Vec3 × ℚ :=
        if m.refl then
          let direction := vnormalize s (vsub d (vsmul (2 * vdot d n) n))
          let reflect : Ray := ⟨vadd position (vsmul RAY_EPSILON direction), direction, ⟨1, 1, 1⟩, .reflection⟩
          let child := rec reflect (vmul m.kr thresh) t
          (vadd colorC (vmul m.kr child.1), child.2)
        else (colorC, t)
      let st2 : Vec3 × ℚ :=
        if m.trans then
          let exiting := 0 < vdot d n
          let nCurrent := if exiting then m.index else 1
          let nOther := if exiting then (1 : ℚ) else m.index
          let normalSign := if exiting then vneg n else n
          let eta := nCurrent / nOther
          let cosd := |vdot normalSign d|
          let w := eta * cosd
          let k := 1 + (w - eta) * (w + eta)
          if 0 < k then
            let direction := vnormalize s (vadd (vsmul (w - s k) normalSign) (vsmul eta d))
            let refract : Ray := ⟨vadd position (vsmul RAY_EPSILON direction), direction, ⟨1, 1, 1⟩, .refraction⟩
            let child := rec refract (vmul m.kt thresh) st1.2
            (vadd st1.1 (vmul m.kt child.1), child.2)
          else st1
        else st1
      st2
  | none => (if env.cubeMapOn then env.cubeMap r else ⟨0, 0, 0⟩, t)

/-- `RayTracer::traceRay` with a structural fuel; `traceRay` below supplies
fuel `(depth + 1).toNat`, which makes the fuel-exhaustion case unreachable
(when the fuel is 0, `depth < 0` and the first guard fires). -/
def traceRayAux (env : Env) (s : ℚ → ℚ) :
    ℕ → Ray → Vec3 → ℤ → ℚ → Vec3 × ℚ
  | n, r, thresh, depth, t =>
      if depth < 0 then (⟨0, 0, 0⟩, t)
      else if thresh.x < env.threshold ∧ thresh.y < env.threshold ∧ thresh.z < env.threshold then
        (⟨0, 0, 0⟩, t)
      else
        match n with
        | 0 => (⟨0, 0, 0⟩, t)
        | n' + 1 =>
            traceRayCore env s (fun r' th' t' => traceRayAux env s n' r' th' (depth - 1) t') r thresh t

/-- `RayTracer::traceRay(r, thresh, depth, t&)`, returning `(color, t)`. -/
def traceRay (env : Env) (s : ℚ → ℚ) (r : Ray) (thresh : Vec3) (depth : ℤ) (t : ℚ) : Vec3 × ℚ :=
  traceRayAux env s (depth + 1).toNat r thresh depth t

/-- `RayTracer::trace(x, y)`: shoot the camera ray, trace with weight
`(1,1,1)` at the configured depth, clamp the result to `[0,1]³`.  The `dummy`
out-argument is uninitialised in the source; it is passed as 0 here and never
influences the color. -/
def trace (env : Env) (s : ℚ → ℚ) (x y : ℚ) : Vec3 :=
  let r := env.rayThrough x y
  vclamp01 (traceRay env s r ⟨1, 1, 1⟩ env.depth 0).1

/-- `(int)(255.0 * c)` assigned to an `unsigned char`: C truncation toward
zero, then conversion modulo 256. -/
def toByte (q : ℚ) : ℕ := ((ratTrunc (255 * q)) % 256).toNat

/-- The three byte stores shared verbatim by `tracePixel` and `setPixel`:
`pixel = buffer + (i + j*w)*3; pixel[0] = R; pixel[1] = G; pixel[2] = B`. -/
def setPixelBytes (buf : List ℕ) (w i j : ℕ) (c : Vec3) : List ℕ :=
  ((buf.set ((i + j * w) * 3) (toByte c.x)).set
      ((i + j * w) * 3 + 1) (toByte c.y)).set
    ((i + j * w) * 3 + 2) (toByte c.z)

/-- `RayTracer::setPixel(i, j, color)`. -/
def setPixel (buf : List ℕ) (w i j : ℕ) (c : Vec3) : List ℕ := setPixelBytes buf w i j c

/-- `RayTracer::tracePixel(i, j)` over an explicit byte buffer; returns the
traced color together with the updated buffer. -/
def tracePixel (env : Env) (s : ℚ → ℚ) (buf : List ℕ) (w h : ℕ) (i j : ℕ) : Vec3 × List ℕ :=
  if env.sceneLoaded = false then (⟨0, 0, 0⟩, buf)
  else
    let x := (i : ℚ) / (w : ℚ)
    let y := (j : ℚ) / (h : ℚ)
    let col := trace env s x y
    (col, setPixelBytes buf w i j col)

/-- The pixel-index loop of `RayTracer::traceImageThread`:
`for (p = id; p < bound; p += step)`.  The fuel bounds the iteration count;
`bound` iterations suffice whenever `step ≥ 1` (for `step = 0` the C++ loop
does not terminate). -/
def strideLoop (bound step : ℕ) : ℕ → ℕ → List ℕ
  | 0, _ => []
  | fuel + 1, p => if p < bound then p :: strideLoop bound step fuel (p + step) else []

/-- The pixel indices visited by worker `id` in `traceImageThread`. -/
def strideIdx (w h threads id : ℕ) : List ℕ := strideLoop (w * h) threads (w * h) id

/-- The pixels `(i, j)` traced by worker `id`, with the source's mapping
`i = p / buffer_height`, `j = p % buffer_height`. -/
def workerPixels (w h threads id : ℕ) : List (ℕ × ℕ) :=
  (strideIdx w h threads id).map fun p => (p / h, p % h)

/- ### Lights (`src/ray/src/scene/light.cpp`) -/

structure DirectionalLight where
  orientation : Vec3
  color : Vec3
  deriving DecidableEq, Repr

structure PointLight where
  position : Vec3
  color : Vec3
  constantTerm : ℚ
  linearTerm : ℚ
  quadraticTerm : ℚ
  deriving DecidableEq, Repr

/-- `DirectionalLight::getDirection(P) = -orientation`. -/
def DirectionalLight.getDirection (L : DirectionalLight) (_p : Vec3) : Vec3 := vneg L.orientation

/-- `PointLight::getDirection(P) = normalize(position - P)`. -/
def PointLight.getDirection (s : ℚ → ℚ) (L : PointLight) (p : Vec3) : Vec3 :=
  vnormalize s (vsub L.position p)

/-- `PointLight::distanceAttenuation(P)`. -/
def PointLight.distanceAttenuation (s : ℚ → ℚ) (L : PointLight) (p : Vec3) : ℚ :=
  let d := glmDistance s L.position p
  min 1 (1 / (L.constantTerm + L.linearTerm * d + L.quadraticTerm * d * d))

/-- `DirectionalLight::shadowAttenuation(r, p)`. -/
def DirectionalLight.shadowAttenuation (env : Env) (s : ℚ → ℚ) (L : DirectionalLight)
    (_r : Ray) (p : Vec3) : Vec3 :=
  let direction := vnormalize s (L.getDirection p)
  let shadow : Ray := ⟨vadd p (vsmul RAY_EPSILON direction), direction, ⟨1, 1, 1⟩, .shadow⟩
  match env.intersect shadow with
  | some i => vmul i.material.kt L.color
  | none => L.color

/-- `PointLight::shadowAttenuation(r, p)`. -/
def PointLight.shadowAttenuation (env : Env) (s : ℚ → ℚ) (L : PointLight)
    (_r : Ray) (p : Vec3) : Vec3 :=
  let direction := vnormalize s (PointLight.getDirection s L p)
  let shadow : Ray := ⟨vadd p (vsmul RAY_EPSILON direction), direction, ⟨1, 1, 1⟩, .shadow⟩
  match env.intersect shadow with
  | some i =>
      if i.t < glmDistance s L.position p then vmul i.material.kt L.color else L.color
  | none => L.color

/- ### Concrete test data -/

/-- Identity stub for the abstract square root; adequate wherever a theorem
places no constraint on `s`. -/
def sZero : ℚ → ℚ := fun _ => 0

/-- Square-root stub returning 1 (so `vnormalize sOne` is the identity scaling). -/
def sOne : ℚ → ℚ := fun _ => 1

/-- Material with a given identity and no reflection/transmission. -/
def mkMat (mid : ℕ) : Material :=
  { matId := mid, refl := false, trans := false, kr := ⟨0, 0, 0⟩, kt := ⟨0, 0, 0⟩, index := 1 }

/-- A concrete axis-aligned-box geometry (primitive implementations are
external to the provided sources; this instance reports the nearest
positive-parameter hit of the ray with the box, as the geometry interface
contract requires). -/
def boxGeom (bmin bmax : Vec3) (mid : ℕ) : Geometry :=
  { bbox := ⟨bmin, bmax⟩
    normal := ⟨1, 0, 0⟩
    intersectFn := fun r =>
      let res := bboxIntersect ⟨bmin, bmax⟩ r
      if res.1 = true ∧ 0 < res.2.1 then some ⟨res.2.1, ⟨1, 0, 0⟩, mkMat mid⟩ else none }

/-- Unit box spanning `x ∈ [0,1]`, `y,z ∈ [0,1]`, material 0. -/
def gA : Geometry := boxGeom ⟨0, 0, 0⟩ ⟨1, 1, 1⟩ 0

/-- Unit box spanning `x ∈ [2,3]`, `y,z ∈ [0,1]`, material 1. -/
def gB : Geometry := boxGeom ⟨2, 0, 0⟩ ⟨3, 1, 1⟩ 1

def sceneObjs : List Geometry := [gA, gB]

def sceneBox : BBox := ⟨⟨0, 0, 0⟩, ⟨3, 1, 1⟩⟩

/-- A ray starting at `(10, 1/2, 1/2)` travelling in the `-x` direction,
through both boxes: it meets `gB` at `t = 7` and `gA` at `t = 9`. -/
def ray1 : Ray := ⟨⟨10, 1/2, 1/2⟩, ⟨-1, 0, 0⟩, ⟨1, 1, 1⟩, .visibility⟩

/-- Incoming intersection record (contents irrelevant before a hit). -/
def isect0 : Isect := ⟨0, ⟨0, 0, 0⟩, mkMat 99⟩

/-- Claim C1: the KD-tree built over `sceneObjs` (leafSize 1, depthLimit 5)
splits at `x = 1` with `gA` left and `gB` right; on `ray1` (travelling toward
`-x`) the split node descends both children left-first and returns `gA`'s hit
`t = 9` without consulting the right child, while the linear scan over all
geometries returns the nearest hit `t = 7` on `gB`.  The KD traversal and the
linear scan disagree in both `t` (9 vs 7, beyond any 1e-9 tolerance) and
material (0 vs 1), refuting the claimed equivalence on this input. -/
theorem kd_intersect_misses_nearest_hit :
    ((buildTree sZero sceneObjs sceneBox 5 1).findIntersection ray1 isect0 0 1e308).1 = true ∧
    ((buildTree sZero sceneObjs sceneBox 5 1).findIntersection ray1 isect0 0 1e308).2.1.t = 9 ∧
    ((buildTree sZero sceneObjs sceneBox 5 1).findIntersection ray1 isect0 0 1e308).2.1.material.matId = 0 ∧
    (linearIntersect sceneObjs ray1).map (fun i => (i.t, i.material.matId)) = some (7, 1) := by
  decide

/-- Claim C5 (counterexample): `LeafNode::findIntersection` on the leaf
`[gA]` with the active interval `[0, 1]` reports a hit, although the only
contained geometry's only hit has parameter `t = 9`, which is not inside
`[0, 1]`: the leaf overwrites the passed interval with each object's own
bounding-box interval (`bbox.intersect` writes through the references),
so the passed interval never constrains the accepted hits. -/
theorem leaf_reports_hit_outside_interval :
    ((KNode.leaf [gA]).findIntersection ray1 isect0 0 1).1 = true ∧
    (gA.intersectFn ray1).map Isect.t = some 9 ∧
    ¬((0 : ℚ) ≤ 9 ∧ (9 : ℚ) ≤ 1) := by
  decide

/-- Environment for the pixel-format counterexample: scene loaded, no
geometry, cube map returning the constant color `(1/2, 1/2, 1/2)`. -/
def env4 : Env :=
  { sceneLoaded := true
    threshold := 1/10
    depth := 0
    intersect := fun _ => none
    shade := fun _ _ => ⟨0, 0, 0⟩
    cubeMapOn := true
    cubeMap := fun _ => ⟨1/2, 1/2, 1/2⟩
    rayThrough := fun _ _ => ⟨⟨0, 0, 0⟩, ⟨0, 0, 1⟩, ⟨1, 1, 1⟩, .visibility⟩ }

/-- Claim C4 (counterexample): on a 1×1 buffer the traced color component is
`1/2`; the byte actually stored by `tracePixel` is `(int)(255.0 * 0.5) = 127`
(C cast truncation), while the claimed `round(255 · clamp(c, 0, 1)) = 128`. -/
theorem pixel_store_truncates_not_rounds :
    ((tracePixel env4 sOne [0, 0, 0] 1 1 0 0).1 = ⟨1/2, 1/2, 1/2⟩) ∧
    ((tracePixel env4 sOne [0, 0, 0] 1 1 0 0).2)[0]? = some 127 ∧
    round ((255 : ℚ) * qclamp (1/2)) = 128 ∧ (127 : ℤ) ≠ 128 := by
  decide

/-- Claim C10: when no scene is loaded, `tracePixel` returns `(0,0,0)` and
the buffer is returned unchanged — the guard fires before any ray is traced
or any byte is written. -/
theorem tracePixel_no_scene (env : Env) (s : ℚ → ℚ) (buf : List ℕ) (w h i j : ℕ)
    (hs : env.sceneLoaded = false) :
    tracePixel env s buf w h i j = (⟨0, 0, 0⟩, buf) := by
  simp [tracePixel, hs]

/-- Environment with no scene loaded, for the C10 witness. -/
def envNoScene : Env :=
  { sceneLoaded := false
    threshold := 0
    depth := 0
    intersect := fun _ => none
    shade := fun _ _ => ⟨0, 0, 0⟩
    cubeMapOn := false
    cubeMap := fun _ => ⟨0, 0, 0⟩
    rayThrough := fun _ _ => ⟨⟨0, 0, 0⟩, ⟨0, 0, 1⟩, ⟨1, 1, 1⟩, .visibility⟩ }

/-- Witness for C10 at a concrete unloaded environment and buffer. -/
theorem tracePixel_no_scene_witness :
    envNoScene.sceneLoaded = false ∧
    tracePixel envNoScene sOne [7, 7, 7] 1 1 0 0 = (⟨0, 0, 0⟩, [7, 7, 7]) :=
  ⟨rfl, tracePixel_no_scene envNoScene sOne [7, 7, 7] 1 1 0 0 rfl⟩

/-- The hit of a geometry that the leaf loop can accept: the geometry reports
an intersection whose parameter lies inside the geometry's own bounding-box
slab interval (which the loop writes over the active interval). -/
def objHitIn (ry : Ray) (o : Geometry) : Option Isect :=
  match o.intersectFn ry with
  | some c =>
      if (bboxIntersect o.bbox ry).2.1 ≤ c.t ∧ c.t ≤ (bboxIntersect o.bbox ry).2.2 then some c
      else none
  | none => none

/-- Unfolding characterization of `objHitIn`. -/
theorem objHitIn_eq_some (ry : Ray) (o : Geometry) (c : Isect) :
    objHitIn ry o = some c ↔
      o.intersectFn ry = some c ∧ (bboxIntersect o.bbox ry).2.1 ≤ c.t ∧
        c.t ≤ (bboxIntersect o.bbox ry).2.2 := by
  unfold objHitIn
  rcases ho : o.intersectFn ry with _ | c0
  · simp
  · by_cases hin : (bboxIntersect o.bbox ry).2.1 ≤ c0.t ∧ c0.t ≤ (bboxIntersect o.bbox ry).2.2
    · simp only [if_pos hin]
      constructor
      · rintro h
        injection h with h
        subst h
        exact ⟨rfl, hin⟩
      · rintro ⟨h, _⟩
        injection h with h
        rw [h]
    · simp only [if_neg hin]
      constructor
      · rintro h; cases h
      · rintro ⟨h, hin2⟩
        injection h with h
        subst h
        exact absurd hin2 hin

/-- Invariants of the leaf loop, by induction over the object list with a
general accumulator `(f, i, a, b)`: the running best `t` never increases, the
final record is the initial one or an acceptable hit, it is a lower bound on
every acceptable hit, and the found flag is set exactly when some acceptable
hit beats the initial `t`. -/
theorem leafFold_spec (ry : Ray) :
    ∀ (objs : List Geometry) (f : Bool) (i : Isect) (a b : ℚ),
      ((objs.foldl (leafStep ry) (f, i, a, b)).2.1.t ≤ i.t) ∧
      ((objs.foldl (leafStep ry) (f, i, a, b)).2.1 = i ∨
        ∃ o ∈ objs, objHitIn ry o = some (objs.foldl (leafStep ry) (f, i, a, b)).2.1) ∧
      (∀ o ∈ objs, ∀ c, objHitIn ry o = some c →
        (objs.foldl (leafStep ry) (f, i, a, b)).2.1.t ≤ c.t) ∧
      ((objs.foldl (leafStep ry) (f, i, a, b)).1 = true ↔
        (f = true ∨ ∃ o ∈ objs, ∃ c, objHitIn ry o = some c ∧ c.t < i.t)) := by
  intro objs
  induction objs with
  | nil =>
      intro f i a b
      refine ⟨le_refl _, Or.inl rfl, by simp, ?_⟩
      simp
  | cons o tl IH =>
      intro f i a b
      rw [List.foldl_cons]
      rcases ho : o.intersectFn ry with _ | c
      · -- no intersection with `o`
        have hstep : leafStep ry (f, i, a, b) o =
            (f, i, (bboxIntersect o.bbox ry).2.1, (bboxIntersect o.bbox ry).2.2) := by
          simp [leafStep, ho]
        have hnone : objHitIn ry o = none := by simp [objHitIn, ho]
        rw [hstep]
        obtain ⟨h1, h2, h3, h4⟩ := IH f i (bboxIntersect o.bbox ry).2.1 (bboxIntersect o.bbox ry).2.2
        refine ⟨h1, ?_, ?_, ?_⟩
        · rcases h2 with h2 | ⟨o1, ho1, hh⟩
          · exact Or.inl h2
          · exact Or.inr ⟨o1, List.mem_cons_of_mem _ ho1, hh⟩
        · intro o1 ho1 c1 hc1
          rcases List.mem_cons.mp ho1 with rfl | ho1
          · rw [hnone] at hc1; cases hc1
          · exact h3 o1 ho1 c1 hc1
        · rw [h4]
          constructor
          · rintro (hf | ⟨o1, ho1, c1, hc1, hlt⟩)
            · exact Or.inl hf
            · exact Or.inr ⟨o1, List.mem_cons_of_mem _ ho1, c1, hc1, hlt⟩
          · rintro (hf | ⟨o1, ho1, c1, hc1, hlt⟩)
            · exact Or.inl hf
            · rcases List.mem_cons.mp ho1 with rfl | ho1
              · rw [hnone] at hc1; cases hc1
              · exact Or.inr ⟨o1, ho1, c1, hc1, hlt⟩
      · -- `o` reports the hit `c`
        by_cases hacc : c.t < i.t ∧ (bboxIntersect o.bbox ry).2.1 ≤ c.t ∧
            c.t ≤ (bboxIntersect o.bbox ry).2.2
        · -- accepted: the accumulator becomes `(true, c, lo, hi)`
          have hstep : leafStep ry (f, i, a, b) o =
              (true, c, (bboxIntersect o.bbox ry).2.1, (bboxIntersect o.bbox ry).2.2) := by
            simp [leafStep, ho, hacc]
          have hsome : objHitIn ry o = some c :=
            (objHitIn_eq_some ry o c).mpr ⟨ho, hacc.2.1, hacc.2.2⟩
          rw [hstep]
          obtain ⟨h1, h2, h3, h4⟩ := IH true c (bboxIntersect o.bbox ry).2.1 (bboxIntersect o.bbox ry).2.2
          refine ⟨le_trans h1 (le_of_lt hacc.1), ?_, ?_, ?_⟩
          · rcases h2 with h2 | ⟨o1, ho1, hh⟩
            · exact Or.inr ⟨o, List.mem_cons_self o tl, by rw [hsome, h2]⟩
            · exact Or.inr ⟨o1, List.mem_cons_of_mem _ ho1, hh⟩
          · intro o1 ho1 c1 hc1
            rcases List.mem_cons.mp ho1 with rfl | ho1
            · have := ((objHitIn_eq_some ry o1 c1).mp hc1).1
              rw [ho] at this
              injection this with this
              rw [← this]; exact h1
            · exact h3 o1 ho1 c1 hc1
          · constructor
            · intro _
              exact Or.inr ⟨o, List.mem_cons_self o tl, c, hsome, hacc.1⟩
            · intro _
              exact h4.mpr (Or.inl rfl)
        · -- rejected: the accumulator keeps `(f, i)`
          have hstep : leafStep ry (f, i, a, b) o =
              (f, i, (bboxIntersect o.bbox ry).2.1, (bboxIntersect o.bbox ry).2.2) := by
            simp only [leafStep, ho]
            rw [if_neg hacc]
          rw [hstep]
          obtain ⟨h1, h2, h3, h4⟩ := IH f i (bboxIntersect o.bbox ry).2.1 (bboxIntersect o.bbox ry).2.2
          refine ⟨h1, ?_, ?_, ?_⟩
          · rcases h2 with h2 | ⟨o1, ho1, hh⟩
            · exact Or.inl h2
            · exact Or.inr ⟨o1, List.mem_cons_of_mem _ ho1, hh⟩
          · intro o1 ho1 c1 hc1
            rcases List.mem_cons.mp ho1 with rfl | ho1
            · obtain ⟨he, hin1, hin2⟩ := (objHitIn_eq_some ry o1 c1).mp hc1
              rw [ho] at he
              injection he with he
              refine le_trans h1 ?_
              by_contra hlt
              push_neg at hlt
              refine hacc ⟨?_, ?_, ?_⟩ <;> rw [he] <;> assumption
            · exact h3 o1 ho1 c1 hc1
          · rw [h4]
            constructor
            · rintro (hf | ⟨o1, ho1, c1, hc1, hlt⟩)
              · exact Or.inl hf
              · exact Or.inr ⟨o1, List.mem_cons_of_mem _ ho1, c1, hc1, hlt⟩
            · rintro (hf | ⟨o1, ho1, c1, hc1, hlt⟩)
              · exact Or.inl hf
              · rcases List.mem_cons.mp ho1 with rfl | ho1
                · exfalso
                  obtain ⟨he, hin1, hin2⟩ := (objHitIn_eq_some ry o1 c1).mp hc1
                  rw [ho] at he
                  injection he with he
                  refine hacc ⟨?_, ?_, ?_⟩ <;> rw [he] <;> assumption
                · exact Or.inr ⟨o1, ho1, c1, hc1, hlt⟩

/-- Claim C5 (amended): `LeafNode::findIntersection` returns true iff some
contained geometry reports a hit whose parameter lies inside that geometry's
own bounding-box interval (the loop overwrites the passed `[t_min, t_max]`
with each object's box interval, so the passed interval is never consulted)
and below the `1e13` sentinel; on success the returned isect is such an
acceptable hit with the smallest parameter. -/
theorem leaf_find_characterization (objs : List Geometry) (ry : Ray) (i0 : Isect) (a b : ℚ) :
    (((KNode.leaf objs).findIntersection ry i0 a b).1 = true ↔
      ∃ o ∈ objs, ∃ c, objHitIn ry o = some c ∧ c.t < 1e13) ∧
    (((KNode.leaf objs).findIntersection ry i0 a b).1 = true →
      (∃ o ∈ objs, objHitIn ry o = some ((KNode.leaf objs).findIntersection ry i0 a b).2.1) ∧
      ∀ o ∈ objs, ∀ c, objHitIn ry o = some c →
        ((KNode.leaf objs).findIntersection ry i0 a b).2.1.t ≤ c.t) := by
  have hfi : (KNode.leaf objs).findIntersection ry i0 a b =
      objs.foldl (leafStep ry) (false, { i0 with t := 1e13 }, a, b) := rfl
  obtain ⟨h1, h2, h3, h4⟩ := leafFold_spec ry objs false { i0 with t := 1e13 } a b
  rw [hfi]
  constructor
  · rw [h4]
    simp
  · intro hf
    refine ⟨?_, h3⟩
    rcases h2 with h2 | h2
    · exfalso
      rw [h4] at hf
      rcases hf with hf | ⟨o, hoo, c, hc, hlt⟩
      · cases hf
      · have hle := h3 o hoo c hc
        rw [h2] at hle
        exact absurd hlt (not_lt.mpr hle)
    · exact h2

/-- Witness for the amended C5 at the concrete leaf `[gA]` and ray `ray1`. -/
theorem leaf_find_characterization_witness :
    (∃ o ∈ [gA], ∃ c, objHitIn ray1 o = some c ∧ c.t < 1e13) ∧
    ((∃ o ∈ [gA], objHitIn ray1 o =
        some ((KNode.leaf [gA]).findIntersection ray1 isect0 0 1).2.1) ∧
      ∀ o ∈ [gA], ∀ c, objHitIn ray1 o = some c →
        ((KNode.leaf [gA]).findIntersection ray1 isect0 0 1).2.1.t ≤ c.t) :=
  ⟨(leaf_find_characterization [gA] ray1 isect0 0 1).1.mp (by decide),
   (leaf_find_characterization [gA] ray1 isect0 0 1).2 (by decide)⟩

/-- Characterization of the first-strict-improvement fold used by
`findBestPlane`: starting from `(m, b)`, the final running minimum never
exceeds `m`; if it equals `m` nothing was selected and every candidate costs
at least `m`; if it is below `m` the selected element is the first candidate
attaining the minimum cost. -/
theorem selectFold_spec (f : Plane → ℚ) :
    ∀ (l : List Plane) (m : ℚ) (b : Plane),
      (l.foldl (fun acc p => if f p < acc.1 then (f p, p) else acc) (m, b)).1 ≤ m ∧
      ((l.foldl (fun acc p => if f p < acc.1 then (f p, p) else acc) (m, b)).1 = m →
        (l.foldl (fun acc p => if f p < acc.1 then (f p, p) else acc) (m, b)).2 = b ∧
        ∀ p ∈ l, m ≤ f p) ∧
      ((l.foldl (fun acc p => if f p < acc.1 then (f p, p) else acc) (m, b)).1 < m →
        (l.foldl (fun acc p => if f p < acc.1 then (f p, p) else acc) (m, b)).2 ∈ l ∧
        (l.foldl (fun acc p => if f p < acc.1 then (f p, p) else acc) (m, b)).1 =
          f (l.foldl (fun acc p => if f p < acc.1 then (f p, p) else acc) (m, b)).2 ∧
        (∀ p ∈ l,
          (l.foldl (fun acc p => if f p < acc.1 then (f p, p) else acc) (m, b)).1 ≤ f p) ∧
        ∃ l1 l2, l = l1 ++ (l.foldl (fun acc p => if f p < acc.1 then (f p, p) else acc) (m, b)).2 :: l2 ∧
          ∀ p ∈ l1,
            (l.foldl (fun acc p => if f p < acc.1 then (f p, p) else acc) (m, b)).1 < f p) := by
  intro l
  induction l with
  | nil =>
      intro m b
      refine ⟨le_refl _, fun _ => ⟨rfl, by simp⟩, fun h => absurd h (lt_irrefl m)⟩
  | cons a t IH =>
      intro m b
      rw [List.foldl_cons]
      by_cases hfa : f a < m
      · rw [if_pos hfa]
        obtain ⟨ih1, ih2, ih3⟩ := IH (f a) a
        refine ⟨le_trans ih1 (le_of_lt hfa), ?_, ?_⟩
        · intro heq
          exact absurd heq (ne_of_lt (lt_of_le_of_lt ih1 hfa))
        · intro _
          rcases lt_or_eq_of_le ih1 with hlt | heq
          · obtain ⟨m1, m2, m3, t1, t2, m4, m5⟩ := ih3 hlt
            refine ⟨List.mem_cons_of_mem _ m1, m2, ?_, a :: t1, t2, by rw [List.cons_append, ← m4], ?_⟩
            · intro p hp
              rcases List.mem_cons.mp hp with rfl | hp
              · exact le_of_lt hlt
              · exact m3 p hp
            · intro p hp
              rcases List.mem_cons.mp hp with rfl | hp
              · exact hlt
              · exact m5 p hp
          · obtain ⟨e1, e2⟩ := ih2 heq
            refine ⟨?_, ?_, ?_, [], t, ?_, by simp⟩
            · rw [e1]; exact List.mem_cons_self a t
            · rw [e1, heq]
            · intro p hp
              rcases List.mem_cons.mp hp with rfl | hp
              · rw [heq]
              · rw [heq]; exact e2 p hp
            · rw [e1]; rfl
      · rw [if_neg hfa]
        obtain ⟨ih1, ih2, ih3⟩ := IH m b
        refine ⟨ih1, ?_, ?_⟩
        · intro heq
          obtain ⟨e1, e2⟩ := ih2 heq
          refine ⟨e1, ?_⟩
          intro p hp
          rcases List.mem_cons.mp hp with rfl | hp
          · exact not_lt.mp hfa
          · exact e2 p hp
        · intro hlt
          obtain ⟨m1, m2, m3, t1, t2, m4, m5⟩ := ih3 hlt
          refine ⟨List.mem_cons_of_mem _ m1, m2, ?_, a :: t1, t2, by rw [List.cons_append, ← m4], ?_⟩
          · intro p hp
            rcases List.mem_cons.mp hp with rfl | hp
            · exact le_trans (le_of_lt hlt) (not_lt.mp hfa)
            · exact m3 p hp
          · intro p hp
            rcases List.mem_cons.mp hp with rfl | hp
            · exact lt_of_lt_of_le hlt (not_lt.mp hfa)
            · exact m5 p hp

/-- Claim C6: provided some candidate plane has SAH cost below the `1e100`
sentinel (as in any non-degenerate build step), `findBestPlane` returns a
member of the candidate set `{(axis, bbox-min), (axis, bbox-max)}` over all
objects and axes, its cost `(Nl·A(left) + Nr·A(right)) / A(parent)` is minimal
over all candidates, and it is the first candidate attaining that minimum
(every earlier candidate costs strictly more). -/
theorem findBestPlane_spec (objList : List Geometry) (bbox : BBox)
    (h : ∃ p ∈ planeCandidates objList bbox, planeCost objList bbox p < 1e100) :
    findBestPlane objList bbox ∈ planeCandidates objList bbox ∧
    (∀ p ∈ planeCandidates objList bbox,
      planeCost objList bbox (findBestPlane objList bbox) ≤ planeCost objList bbox p) ∧
    ∃ l1 l2, planeCandidates objList bbox = l1 ++ findBestPlane objList bbox :: l2 ∧
      ∀ p ∈ l1,
        planeCost objList bbox (findBestPlane objList bbox) < planeCost objList bbox p := by
  obtain ⟨h1, h2, h3⟩ :=
    selectFold_spec (planeCost objList bbox) (planeCandidates objList bbox) 1e100 (defaultPlane bbox)
  have hlt : ((planeCandidates objList bbox).foldl
      (fun acc p => if planeCost objList bbox p < acc.1 then (planeCost objList bbox p, p) else acc)
      ((1e100 : ℚ), defaultPlane bbox)).1 < 1e100 := by
    rcases lt_or_eq_of_le h1 with hlt | heq
    · exact hlt
    · exfalso
      obtain ⟨p, hp, hplt⟩ := h
      exact absurd hplt (not_lt.mpr ((h2 heq).2 p hp))
  obtain ⟨m1, m2, m3, l1, l2, m4, m5⟩ := h3 hlt
  unfold findBestPlane
  refine ⟨m1, ?_, l1, l2, m4, ?_⟩
  · intro p hp
    rw [← m2]
    exact m3 p hp
  · intro p hp
    rw [← m2]
    exact m5 p hp

/-- Witness for C6 on the concrete two-box scene: the cost hypothesis holds
and the selected plane is a minimal-cost candidate. -/
theorem findBestPlane_spec_witness :
    (∃ p ∈ planeCandidates sceneObjs sceneBox, planeCost sceneObjs sceneBox p < 1e100) ∧
    (findBestPlane sceneObjs sceneBox ∈ planeCandidates sceneObjs sceneBox ∧
      (∀ p ∈ planeCandidates sceneObjs sceneBox,
        planeCost sceneObjs sceneBox (findBestPlane sceneObjs sceneBox) ≤
          planeCost sceneObjs sceneBox p) ∧
      ∃ l1 l2, planeCandidates sceneObjs sceneBox = l1 ++ findBestPlane sceneObjs sceneBox :: l2 ∧
        ∀ p ∈ l1,
          planeCost sceneObjs sceneBox (findBestPlane sceneObjs sceneBox) <
            planeCost sceneObjs sceneBox p) :=
  ⟨by decide, findBestPlane_spec sceneObjs sceneBox (by decide)⟩

/-- Claim C7: since `vdot v v ≥ 0` and the square root of a non-negative
argument is non-negative, the guard `glm::length(obj->getNormal()) < 0` of the
left tie-break branch in `buildTreeHelper` is false for every object: the left
list is exactly the objects with `min < pos` (the tie-break branch is
unreachable), the right list is exactly those with `max > pos` or
`min == max == pos`, and every object whose bbox degenerates to the split
plane is routed right and not left. -/
theorem buildTree_tie_routing (s : ℚ → ℚ) (hs : ∀ x, 0 ≤ x → 0 ≤ s x)
    (plane : Plane) (objs : List Geometry) :
    partitionLeftList s plane objs =
      objs.filter (fun o => decide (o.bbox.bmin.comp plane.axis < plane.position)) ∧
    partitionRightList s plane objs =
      objs.filter (fun o => decide (plane.position < o.bbox.bmax.comp plane.axis) ||
        (decide (plane.position = o.bbox.bmax.comp plane.axis) &&
         decide (plane.position = o.bbox.bmin.comp plane.axis))) ∧
    ∀ o ∈ objs, o.bbox.bmin.comp plane.axis = plane.position →
      o.bbox.bmax.comp plane.axis = plane.position →
      o ∈ partitionRightList s plane objs ∧ o ∉ partitionLeftList s plane objs := by
  have hlen : ∀ o : Geometry, ¬ glmLength s o.normal < 0 := by
    intro o
    refine not_lt.mpr (hs _ ?_)
    unfold vdot
    exact add_nonneg (add_nonneg (mul_self_nonneg _) (mul_self_nonneg _)) (mul_self_nonneg _)
  have hleft : partitionLeftList s plane objs =
      objs.filter (fun o => decide (o.bbox.bmin.comp plane.axis < plane.position)) := by
    unfold partitionLeftList
    refine List.filter_congr ?_
    intro o _
    have hd : decide (glmLength s o.normal < 0) = false := decide_eq_false (hlen o)
    simp [routeLeftB, hd]
  have hright : partitionRightList s plane objs =
      objs.filter (fun o => decide (plane.position < o.bbox.bmax.comp plane.axis) ||
        (decide (plane.position = o.bbox.bmax.comp plane.axis) &&
         decide (plane.position = o.bbox.bmin.comp plane.axis))) := by
    unfold partitionRightList
    refine List.filter_congr ?_
    intro o _
    have hd : decide (0 ≤ glmLength s o.normal) = true :=
      decide_eq_true (not_lt.mp (hlen o))
    simp [routeRightB, hd]
  refine ⟨hleft, hright, ?_⟩
  intro o ho hmin hmax
  constructor
  · rw [hright]
    refine List.mem_filter.mpr ⟨ho, ?_⟩
    rw [hmax, hmin]
    simp
  · rw [hleft]
    intro hmem
    have := (List.mem_filter.mp hmem).2
    rw [hmin] at this
    simp at this

/-- A geometry whose bounding box degenerates to the plane `x = 0`. -/
def gFlat : Geometry := boxGeom ⟨0, 0, 0⟩ ⟨0, 1, 1⟩ 2

/-- A candidate split plane at `x = 0`. -/
def planeX0 : Plane := ⟨0, 0, sceneBox, sceneBox⟩

/-- Witness for C7 with a degenerate object lying exactly on the split plane. -/
theorem buildTree_tie_routing_witness :
    (∀ x : ℚ, 0 ≤ x → 0 ≤ sZero x) ∧
    (partitionLeftList sZero planeX0 [gFlat, gA] =
        List.filter (fun o => decide (o.bbox.bmin.comp planeX0.axis < planeX0.position)) [gFlat, gA] ∧
      partitionRightList sZero planeX0 [gFlat, gA] =
        List.filter (fun o => decide (planeX0.position < o.bbox.bmax.comp planeX0.axis) ||
          (decide (planeX0.position = o.bbox.bmax.comp planeX0.axis) &&
           decide (planeX0.position = o.bbox.bmin.comp planeX0.axis))) [gFlat, gA] ∧
      ∀ o ∈ [gFlat, gA], o.bbox.bmin.comp planeX0.axis = planeX0.position →
        o.bbox.bmax.comp planeX0.axis = planeX0.position →
        o ∈ partitionRightList sZero planeX0 [gFlat, gA] ∧
        o ∉ partitionLeftList sZero planeX0 [gFlat, gA]) :=
  ⟨fun _ _ => le_refl 0,
   buildTree_tie_routing sZero (fun _ _ => le_refl 0) planeX0 [gFlat, gA]⟩

/-- Claim C8: for both light kinds `shadowAttenuation` casts a shadow ray
from `p + RAY_EPSILON·dir` in the direction `dir` toward the light; it returns
the light's color unattenuated when the scene reports no occluder, for a point
light also when the occluder's parameter is not below the distance to the
light, and otherwise exactly one multiplication by the occluding material's
`kt` is applied (no chaining over further occluders). -/
theorem shadowAttenuation_spec (env : Env) (s : ℚ → ℚ) (DL : DirectionalLight)
    (PL : PointLight) (r : Ray) (p : Vec3) :
    (env.intersect ⟨vadd p (vsmul RAY_EPSILON (vnormalize s (DL.getDirection p))),
        vnormalize s (DL.getDirection p), ⟨1, 1, 1⟩, .shadow⟩ = none →
      DL.shadowAttenuation env s r p = DL.color) ∧
    (∀ i, env.intersect ⟨vadd p (vsmul RAY_EPSILON (vnormalize s (DL.getDirection p))),
        vnormalize s (DL.getDirection p), ⟨1, 1, 1⟩, .shadow⟩ = some i →
      DL.shadowAttenuation env s r p = vmul i.material.kt DL.color) ∧
    (env.intersect ⟨vadd p (vsmul RAY_EPSILON (vnormalize s (PointLight.getDirection s PL p))),
        vnormalize s (PointLight.getDirection s PL p), ⟨1, 1, 1⟩, .shadow⟩ = none →
      PL.shadowAttenuation env s r p = PL.color) ∧
    (∀ i, env.intersect ⟨vadd p (vsmul RAY_EPSILON (vnormalize s (PointLight.getDirection s PL p))),
        vnormalize s (PointLight.getDirection s PL p), ⟨1, 1, 1⟩, .shadow⟩ = some i →
      (¬ i.t < glmDistance s PL.position p → PL.shadowAttenuation env s r p = PL.color) ∧
      (i.t < glmDistance s PL.position p →
        PL.shadowAttenuation env s r p = vmul i.material.kt PL.color)) := by
  refine ⟨?_, ?_, ?_, ?_⟩
  · intro h
    simp only [DirectionalLight.shadowAttenuation]
    rw [h]
  · intro i h
    simp only [DirectionalLight.shadowAttenuation]
    rw [h]
  · intro h
    simp only [PointLight.shadowAttenuation]
    rw [h]
  · intro i h
    constructor
    · intro hd
      simp only [PointLight.shadowAttenuation]
      rw [h]
      simp only [if_neg hd]
    · intro hd
      simp only [PointLight.shadowAttenuation]
      rw [h]
      simp only [if_pos hd]

/-- Square-root stub returning 3 (useful for concrete distances). -/
def sThree : ℚ → ℚ := fun _ => 3

/-- A half-opaque transmissive material for the shadow-attenuation witness. -/
def occlMat : Material :=
  { matId := 5, refl := false, trans := true, kr := ⟨0, 0, 0⟩, kt := ⟨1/2, 1/2, 1/2⟩, index := 3/2 }

/-- A fixed occluding intersection record with `t = 100`. -/
def occl : Isect := ⟨100, ⟨0, 0, 1⟩, occlMat⟩

/-- Environment whose scene reports `occl` for every ray. -/
def envOccl : Env :=
  { sceneLoaded := true
    threshold := 0
    depth := 0
    intersect := fun _ => some occl
    shade := fun _ _ => ⟨0, 0, 0⟩
    cubeMapOn := false
    cubeMap := fun _ => ⟨0, 0, 0⟩
    rayThrough := fun _ _ => ⟨⟨0, 0, 0⟩, ⟨0, 0, 1⟩, ⟨1, 1, 1⟩, .visibility⟩ }

def rayZ : Ray := ⟨⟨0, 0, 0⟩, ⟨0, 0, 1⟩, ⟨1, 1, 1⟩, .visibility⟩

def DLw : DirectionalLight := ⟨⟨0, 0, -1⟩, ⟨1, 1, 1⟩⟩

def PLw : PointLight := ⟨⟨0, 0, 0⟩, ⟨1, 1, 1⟩, 0, 0, 1⟩

/-- Witness for C8: with the constant occluder at `t = 100`, the directional
light is attenuated by `kt`, while the point light at distance 3 is not
attenuated because the occluder lies beyond it. -/
theorem shadowAttenuation_spec_witness :
    DirectionalLight.shadowAttenuation envOccl sThree DLw rayZ ⟨1, 0, 0⟩ =
      vmul occl.material.kt DLw.color ∧
    PointLight.shadowAttenuation envOccl sThree PLw rayZ ⟨1, 0, 0⟩ = PLw.color :=
  ⟨(shadowAttenuation_spec envOccl sThree DLw PLw rayZ ⟨1, 0, 0⟩).2.1 occl rfl,
   ((shadowAttenuation_spec envOccl sThree DLw PLw rayZ ⟨1, 0, 0⟩).2.2.2 occl rfl).1 (by decide)⟩

/-- Claim C3: `traceRay` returns `(0,0,0)` (leaving `t` untouched) when
`depth < 0`, and when all three components of `thresh` are below the global
threshold; the cutoff is a logical AND, so when `depth ≥ 0` and at least one
component is not below the threshold the base cases do not fire and the call
proceeds to the post-guard body `traceRayCore` (with the recursion at
`depth - 1`). -/
theorem traceRayAux_unfold (env : Env) (s : ℚ → ℚ) (n : ℕ) (r : Ray) (thresh : Vec3)
    (depth : ℤ) (t : ℚ) :
    traceRayAux env s n r thresh depth t =
      if depth < 0 then (⟨0, 0, 0⟩, t)
      else if thresh.x < env.threshold ∧ thresh.y < env.threshold ∧ thresh.z < env.threshold then
        (⟨0, 0, 0⟩, t)
      else
        match n with
        | 0 => (⟨0, 0, 0⟩, t)
        | n' + 1 =>
            traceRayCore env s (fun r' th' t' => traceRayAux env s n' r' th' (depth - 1) t')
              r thresh t := by
  rw [traceRayAux.eq_def]

theorem traceRay_base_cases (env : Env) (s : ℚ → ℚ) (r : Ray) (thresh : Vec3)
    (depth : ℤ) (t : ℚ) :
    (depth < 0 → traceRay env s r thresh depth t = (⟨0, 0, 0⟩, t)) ∧
    ((thresh.x < env.threshold ∧ thresh.y < env.threshold ∧ thresh.z < env.threshold) →
      traceRay env s r thresh depth t = (⟨0, 0, 0⟩, t)) ∧
    (0 ≤ depth →
      ¬(thresh.x < env.threshold ∧ thresh.y < env.threshold ∧ thresh.z < env.threshold) →
      traceRay env s r thresh depth t =
        traceRayCore env s (fun r' th' t' => traceRay env s r' th' (depth - 1) t') r thresh t) := by
  refine ⟨?_, ?_, ?_⟩
  · intro hdn
    unfold traceRay
    rw [traceRayAux_unfold, if_pos hdn]
  · intro hth
    unfold traceRay
    rw [traceRayAux_unfold]
    by_cases hdn : depth < 0
    · rw [if_pos hdn]
    · rw [if_neg hdn, if_pos hth]
  · intro hd hth
    have hdn : ¬ depth < 0 := not_lt.mpr hd
    have hn : (depth + 1).toNat = depth.toNat + 1 := by omega
    have hm' : (depth - 1 + 1).toNat = depth.toNat := by omega
    unfold traceRay
    rw [hn, traceRayAux_unfold, if_neg hdn, if_neg hth, hm']

/-- Witness for C3 at concrete inputs: negative depth, an all-below threshold
vector, and the pass-through case. -/
theorem traceRay_base_cases_witness :
    ((-1 : ℤ) < 0 ∧ traceRay env4 sOne rayZ ⟨1, 1, 1⟩ (-1) 5 = (⟨0, 0, 0⟩, 5)) ∧
    (((0:ℚ) < env4.threshold ∧ (0:ℚ) < env4.threshold ∧ (0:ℚ) < env4.threshold) ∧
      traceRay env4 sOne rayZ ⟨0, 0, 0⟩ 2 5 = (⟨0, 0, 0⟩, 5)) ∧
    ((0 : ℤ) ≤ 0 ∧ traceRay env4 sOne rayZ ⟨1, 1, 1⟩ 0 5 =
      traceRayCore env4 sOne (fun r' th' t' => traceRay env4 sOne r' th' (0 - 1) t')
        rayZ ⟨1, 1, 1⟩ 5) :=
  ⟨⟨by decide, (traceRay_base_cases env4 sOne rayZ ⟨1, 1, 1⟩ (-1) 5).1 (by decide)⟩,
   ⟨by decide, (traceRay_base_cases env4 sOne rayZ ⟨0, 0, 0⟩ 2 5).2.1 (by decide)⟩,
   ⟨by decide, (traceRay_base_cases env4 sOne rayZ ⟨1, 1, 1⟩ 0 5).2.2 (by decide) (by decide)⟩⟩

theorem vdot_comm (a b : Vec3) : vdot a b = vdot b a := by
  unfold vdot
  ring

/-- Claim C2: on a hit with a transmissive material (and neither base case
firing), `traceRay` classifies the ray as exiting exactly when `d·n > 0`,
flips the working normal and swaps the indices (with constant index 1 on the
outside), forms `η = n_from/n_to`, `c = |d·n_working|` and
`k = 1 + (η·c − η)·(η·c + η)`; if `k ≤ 0` (total internal reflection) the
refraction step leaves color and `t` unchanged, and otherwise the refracted
direction is `normalize((η·c − √k)·n_working + η·d)` and `m.kt · childColor`
is added, the child recursion receiving `m.kt · thresh` and `depth − 1`. -/
theorem traceRay_refraction_spec (env : Env) (s : ℚ → ℚ) (r : Ray) (thresh : Vec3)
    (depth : ℤ) (t : ℚ) (i : Isect)
    (hd : 0 ≤ depth)
    (hth : ¬(thresh.x < env.threshold ∧ thresh.y < env.threshold ∧ thresh.z < env.threshold))
    (hi : env.intersect r = some i)
    (htr : i.material.trans = true) :
    traceRay env s r thresh depth t =
      (let m := i.material
       let d := vnormalize s r.dir
       let n := vnormalize s i.n
       let position := r.at i.t
       let pre : Vec3 × ℚ :=
         if m.refl then
           let rdir := vnormalize s (vsub d (vsmul (2 * vdot d n) n))
           let child := traceRay env s
             ⟨vadd position (vsmul RAY_EPSILON rdir), rdir, ⟨1, 1, 1⟩, .reflection⟩
             (vmul m.kr thresh) (depth - 1) i.t
           (vadd (env.shade r i) (vmul m.kr child.1), child.2)
         else (env.shade r i, i.t)
       let exiting := 0 < vdot d n
       let nw := if exiting then vneg n else n
       let nFrom := if exiting then m.index else 1
       let nTo := if exiting then (1 : ℚ) else m.index
       let eta := nFrom / nTo
       let c := |vdot d nw|
       let k := 1 + (eta * c - eta) * (eta * c + eta)
       if k ≤ 0 then pre
       else
         let tdir := vnormalize s (vadd (vsmul (eta * c - s k) nw) (vsmul eta d))
         let child := traceRay env s
           ⟨vadd position (vsmul RAY_EPSILON tdir), tdir, ⟨1, 1, 1⟩, .refraction⟩
           (vmul m.kt thresh) (depth - 1) pre.2
         (vadd pre.1 (vmul m.kt child.1), child.2)) := by
  rw [(traceRay_base_cases env s r thresh depth t).2.2 hd hth]
  have hcomm : ∀ v : Vec3, vdot v (vnormalize s r.dir) = vdot (vnormalize s r.dir) v :=
    fun v => vdot_comm v (vnormalize s r.dir)
  simp only [traceRayCore, hi, htr, eq_self_iff_true, if_true, hcomm]
  split_ifs with h1 h2 h3 <;> first | rfl | (exfalso; first | exact h2 (not_lt.mp h3) | exact h3 (not_le.mp h2) | linarith)

/-- Transmissive, non-reflective material with index 2. -/
def matTrans : Material :=
  { matId := 7, refl := false, trans := true, kr := ⟨0, 0, 0⟩, kt := ⟨1/2, 1/2, 1/2⟩, index := 2 }

/-- A hit at `t = 5` on `matTrans` with outward normal `+z`. -/
def isectT : Isect := ⟨5, ⟨0, 0, 1⟩, matTrans⟩

/-- Environment whose scene reports `isectT` for every ray. -/
def envT : Env :=
  { sceneLoaded := true
    threshold := 1/10
    depth := 0
    intersect := fun _ => some isectT
    shade := fun _ _ => ⟨1/4, 1/4, 1/4⟩
    cubeMapOn := false
    cubeMap := fun _ => ⟨0, 0, 0⟩
    rayThrough := fun _ _ => ⟨⟨0, 0, 0⟩, ⟨0, 0, 1⟩, ⟨1, 1, 1⟩, .visibility⟩ }

/-- A ray descending along `-z` onto the transmissive surface. -/
def rD : Ray := ⟨⟨0, 0, 3⟩, ⟨0, 0, -1⟩, ⟨1, 1, 1⟩, .visibility⟩

/-- Witness for C2 at the concrete transmissive hit: `k = 1 > 0`, the child
recursion at depth `-1` contributes zero, so the color is the direct shade. -/
theorem traceRay_refraction_spec_witness :
    envT.intersect rD = some isectT ∧ isectT.material.trans = true ∧
    traceRay envT sOne rD ⟨1, 1, 1⟩ 0 17 = (⟨1/4, 1/4, 1/4⟩, 5) := by
  refine ⟨rfl, rfl, ?_⟩
  rw [traceRay_refraction_spec envT sOne rD ⟨1, 1, 1⟩ 0 17 isectT (by decide) (by decide) rfl rfl]
  decide

/-- Membership in the stride loop: with a positive step and enough fuel, the
visited indices are exactly `p, p+step, p+2·step, …` below `bound`. -/
theorem strideLoop_mem (bound step : ℕ) (hstep : 0 < step) :
    ∀ (fuel p q : ℕ), bound ≤ fuel + p →
      (q ∈ strideLoop bound step fuel p ↔ (∃ k, q = p + k * step) ∧ q < bound) := by
  intro fuel
  induction fuel with
  | zero =>
      intro p q hb
      simp only [strideLoop]
      constructor
      · intro hmem
        cases hmem
      · rintro ⟨⟨k, hk⟩, hlt⟩
        have hle : p ≤ p + k * step := Nat.le_add_right _ _
        rw [← hk] at hle
        omega
  | succ fuel IH =>
      intro p q hb
      simp only [strideLoop]
      by_cases hp : p < bound
      · rw [if_pos hp, List.mem_cons, IH (p + step) q (by omega)]
        constructor
        · rintro (rfl | ⟨⟨k, hk⟩, hlt⟩)
          · exact ⟨⟨0, by simp⟩, hp⟩
          · refine ⟨⟨k + 1, ?_⟩, hlt⟩
            rw [hk]
            ring
        · rintro ⟨⟨k, hk⟩, hlt⟩
          cases k with
          | zero =>
              left
              simpa using hk
          | succ k' =>
              right
              refine ⟨⟨k', ?_⟩, hlt⟩
              rw [hk]
              ring
      · rw [if_neg hp]
        constructor
        · intro hmem
          cases hmem
        · rintro ⟨⟨k, hk⟩, hlt⟩
          have hle : p ≤ p + k * step := Nat.le_add_right _ _
          rw [← hk] at hle
          omega

/-- The stride loop never visits an index twice. -/
theorem strideLoop_nodup (bound step : ℕ) (hstep : 0 < step) :
    ∀ (fuel p : ℕ), bound ≤ fuel + p → (strideLoop bound step fuel p).Nodup := by
  intro fuel
  induction fuel with
  | zero =>
      intro p _
      simp [strideLoop]
  | succ fuel IH =>
      intro p hb
      simp only [strideLoop]
      by_cases hp : p < bound
      · rw [if_pos hp]
        refine List.nodup_cons.mpr ⟨?_, IH (p + step) (by omega)⟩
        intro hmem
        obtain ⟨⟨k, hk⟩, -⟩ :=
          (strideLoop_mem bound step hstep fuel (p + step) p (by omega)).mp hmem
        have hle : p + step ≤ p + step + k * step := Nat.le_add_right _ _
        rw [← hk] at hle
        omega
      · rw [if_neg hp]
        exact List.nodup_nil

/-- The map `p ↦ (p / h, p % h)` is injective. -/
theorem divmod_inj (h : ℕ) : Function.Injective (fun p : ℕ => (p / h, p % h)) := by
  intro p q hpq
  have h1 : p / h = q / h := congrArg Prod.fst hpq
  have h2 : p % h = q % h := congrArg Prod.snd hpq
  calc p = h * (p / h) + p % h := (Nat.div_add_mod p h).symm
    _ = h * (q / h) + q % h := by rw [h1, h2]
    _ = q := Nat.div_add_mod q h

/-- Claim C9: worker `id < threads` visits exactly the pixel indices
`p ≡ id (mod threads)` below `w·h`, each exactly once, mapped to
`(p / h, p mod h)`; every in-range pixel `(i, j)` is traced by exactly one
worker, and distinct pixel indices write disjoint byte offsets
`(i + j·w)·3`, so each byte of the buffer is written by exactly one worker. -/
theorem traceImageThread_partition (w h threads : ℕ) (ht : 0 < threads) :
    (∀ id, id < threads →
      ∀ p, p ∈ strideIdx w h threads id ↔ (p < w * h ∧ p % threads = id)) ∧
    (∀ id, (workerPixels w h threads id).Nodup) ∧
    (∀ i j, i < w → j < h →
      ∃! id, id < threads ∧ (i, j) ∈ workerPixels w h threads id) ∧
    (∀ p q, p < w * h → q < w * h →
      (p / h + (p % h) * w) * 3 = (q / h + (q % h) * w) * 3 → p = q) := by
  have hmem : ∀ id, id < threads →
      ∀ p, p ∈ strideIdx w h threads id ↔ (p < w * h ∧ p % threads = id) := by
    intro id hid p
    unfold strideIdx
    rw [strideLoop_mem (w * h) threads ht (w * h) id p (by omega)]
    constructor
    · rintro ⟨⟨k, rfl⟩, hlt⟩
      refine ⟨hlt, ?_⟩
      rw [Nat.add_mul_mod_self_right]
      exact Nat.mod_eq_of_lt hid
    · rintro ⟨hlt, hmod⟩
      refine ⟨⟨p / threads, ?_⟩, hlt⟩
      rw [← hmod, Nat.mul_comm (p / threads) threads]
      exact (Nat.mod_add_div p threads).symm
  refine ⟨hmem, ?_, ?_, ?_⟩
  · intro id
    exact (strideLoop_nodup (w * h) threads ht (w * h) id (by omega)).map (divmod_inj h)
  · intro i j hi hj
    have hh : 0 < h := by omega
    have hlt : i * h + j < w * h := by
      have h1 : i * h + j < (i + 1) * h := by
        have : (i + 1) * h = i * h + h := by ring
        omega
      have h2 : (i + 1) * h ≤ w * h := Nat.mul_le_mul_right h (by omega)
      omega
    have hdiv : (i * h + j) / h = i := by
      rw [Nat.mul_comm i h, Nat.mul_add_div hh, Nat.div_eq_of_lt hj]
      omega
    have hmod : (i * h + j) % h = j := by
      rw [Nat.mul_comm i h, Nat.mul_add_mod]
      exact Nat.mod_eq_of_lt hj
    refine ⟨(i * h + j) % threads, ⟨Nat.mod_lt _ ht, ?_⟩, ?_⟩
    · refine List.mem_map.mpr ⟨i * h + j, ?_, by rw [hdiv, hmod]⟩
      exact (hmem _ (Nat.mod_lt _ ht) _).mpr ⟨hlt, rfl⟩
    · rintro id' ⟨hid', hmem'⟩
      obtain ⟨q, hq, hq2⟩ := List.mem_map.mp hmem'
      have hqd : q / h = i := congrArg Prod.fst hq2
      have hqm : q % h = j := congrArg Prod.snd hq2
      have hqe : q = i * h + j := by
        calc q = h * (q / h) + q % h := (Nat.div_add_mod q h).symm
          _ = h * i + j := by rw [hqd, hqm]
          _ = i * h + j := by ring
      have := ((hmem id' hid' q).mp hq).2
      rw [hqe] at this
      exact this.symm
  · intro p q hp hq heq
    rcases Nat.eq_zero_or_pos h with h0 | hh
    · rw [h0, Nat.mul_zero] at hp
      exact absurd hp (Nat.not_lt_zero p)
    rcases Nat.eq_zero_or_pos w with w0 | hw
    · rw [w0, Nat.zero_mul] at hp
      exact absurd hp (Nat.not_lt_zero p)
    have heq' : p / h + p % h * w = q / h + q % h * w := by omega
    have hpw : p / h < w := (Nat.div_lt_iff_lt_mul hh).mpr hp
    have hqw : q / h < w := (Nat.div_lt_iff_lt_mul hh).mpr hq
    have hd : p / h = q / h := by
      have e1 : p / h = (p / h + p % h * w) % w := by
        rw [Nat.add_mul_mod_self_right, Nat.mod_eq_of_lt hpw]
      have e2 : q / h = (q / h + q % h * w) % w := by
        rw [Nat.add_mul_mod_self_right, Nat.mod_eq_of_lt hqw]
      rw [e1, e2, heq']
    have hm : p % h = q % h := by
      have e1 : (p / h + p % h * w) / w = p % h := by
        rw [Nat.add_mul_div_right _ _ hw, Nat.div_eq_of_lt hpw]
        omega
      have e2 : (q / h + q % h * w) / w = q % h := by
        rw [Nat.add_mul_div_right _ _ hw, Nat.div_eq_of_lt hqw]
        omega
      rw [← e1, ← e2, heq']
    exact divmod_inj h (by rw [Prod.mk.injEq]; exact ⟨hd, hm⟩)

/-- Witness for C9 on a 3×2 image with 2 workers. -/
theorem traceImageThread_partition_witness :
    (0 : ℕ) < 2 ∧
    (∀ id, id < 2 → ∀ p, p ∈ strideIdx 3 2 2 id ↔ (p < 3 * 2 ∧ p % 2 = id)) ∧
    (∀ i j, i < 3 → j < 2 → ∃! id, id < 2 ∧ (i, j) ∈ workerPixels 3 2 2 id) :=
  ⟨by decide,
   (traceImageThread_partition 3 2 2 (by decide)).1,
   (traceImageThread_partition 3 2 2 (by decide)).2.2.1⟩

/-- The three byte stores of `setPixelBytes` land at offsets
`(i + j·w)·3`, `+1`, `+2` with the truncated R, G, B values. -/
theorem setPixelBytes_get (buf : List ℕ) (w i j : ℕ) (c : Vec3)
    (hb : (i + j * w) * 3 + 2 < buf.length) :
    (setPixelBytes buf w i j c)[(i + j * w) * 3]? = some (toByte c.x) ∧
    (setPixelBytes buf w i j c)[(i + j * w) * 3 + 1]? = some (toByte c.y) ∧
    (setPixelBytes buf w i j c)[(i + j * w) * 3 + 2]? = some (toByte c.z) := by
  unfold setPixelBytes
  refine ⟨?_, ?_, ?_⟩
  · rw [List.getElem?_set_ne (by omega), List.getElem?_set_ne (by omega)]
    exact List.getElem?_set_self (by omega)
  · rw [List.getElem?_set_ne (by omega)]
    exact List.getElem?_set_self (by rw [List.length_set]; omega)
  · exact List.getElem?_set_self (by rw [List.length_set, List.length_set]; omega)

/-- Claim C4 (amended): for an in-range pixel of a loaded scene, `tracePixel`
traces the color `trace(i/w, j/h)` (already clamped inside `trace`) and stores
it at byte offset `(i + j·w)·3` in R, G, B order, each byte being the C
truncation `(int)(255·c)` reduced mod 256 (`toByte`), not the rounded value;
`setPixel` stores the given color's bytes the same way without clamping. -/
theorem pixel_store_spec (env : Env) (s : ℚ → ℚ) (buf : List ℕ) (w h i j : ℕ) (color : Vec3)
    (hload : env.sceneLoaded = true) (hi' : i < w) (hj : j < h)
    (hlen : buf.length = w * h * 3) :
    (tracePixel env s buf w h i j).1 = trace env s ((i : ℚ) / (w : ℚ)) ((j : ℚ) / (h : ℚ)) ∧
    ((tracePixel env s buf w h i j).2)[(i + j * w) * 3]? =
      some (toByte (trace env s ((i : ℚ) / (w : ℚ)) ((j : ℚ) / (h : ℚ))).x) ∧
    ((tracePixel env s buf w h i j).2)[(i + j * w) * 3 + 1]? =
      some (toByte (trace env s ((i : ℚ) / (w : ℚ)) ((j : ℚ) / (h : ℚ))).y) ∧
    ((tracePixel env s buf w h i j).2)[(i + j * w) * 3 + 2]? =
      some (toByte (trace env s ((i : ℚ) / (w : ℚ)) ((j : ℚ) / (h : ℚ))).z) ∧
    (setPixel buf w i j color)[(i + j * w) * 3]? = some (toByte color.x) ∧
    (setPixel buf w i j color)[(i + j * w) * 3 + 1]? = some (toByte color.y) ∧
    (setPixel buf w i j color)[(i + j * w) * 3 + 2]? = some (toByte color.z) := by
  have hoff : i + j * w < w * h := by
    have h2 : (j + 1) * w ≤ h * w := Nat.mul_le_mul_right w (by omega)
    have h3 : (j + 1) * w = j * w + w := by ring
    have h4 : h * w = w * h := by ring
    omega
  have hb : (i + j * w) * 3 + 2 < buf.length := by
    rw [hlen]
    omega
  have htp : tracePixel env s buf w h i j =
      (trace env s ((i : ℚ) / (w : ℚ)) ((j : ℚ) / (h : ℚ)),
       setPixelBytes buf w i j (trace env s ((i : ℚ) / (w : ℚ)) ((j : ℚ) / (h : ℚ)))) := by
    unfold tracePixel
    rw [hload]
    simp
  obtain ⟨g1, g2, g3⟩ := setPixelBytes_get buf w i j
    (trace env s ((i : ℚ) / (w : ℚ)) ((j : ℚ) / (h : ℚ))) hb
  obtain ⟨p1, p2, p3⟩ := setPixelBytes_get buf w i j color hb
  rw [htp]
  exact ⟨rfl, g1, g2, g3, p1, p2, p3⟩

/-- Witness for the amended C4: on the 1×1 cube-map scene the traced color
component is `1/2` and the stored byte is its truncation 127; `setPixel`
stores the truncated green component of the explicit color the same way. -/
theorem pixel_store_spec_witness :
    env4.sceneLoaded = true ∧
    ((tracePixel env4 sOne [0, 0, 0] 1 1 0 0).2)[(0 + 0 * 1) * 3]? = some 127 ∧
    (setPixel [0, 0, 0] 1 0 0 ⟨1, 1/2, 0⟩)[(0 + 0 * 1) * 3 + 1]? = some 127 := by
  refine ⟨rfl, ?_, ?_⟩
  · rw [(pixel_store_spec env4 sOne [0, 0, 0] 1 1 0 0 ⟨1, 1/2, 0⟩ rfl (by decide) (by decide)
      (by decide)).2.1]
    decide
  · rw [(pixel_store_spec env4 sOne [0, 0, 0] 1 1 0 0 ⟨1, 1/2, 0⟩ rfl (by decide) (by decide)
      (by decide)).2.2.2.2.2.1]
    decide
